import Mathlib

/-!
Verification of the thread-mcp repository (a conversation-thread persistence
service) against its natural-language specification.

This file gives a shallow embedding of the parts of the source that the
claims are about:

* the data model (src/types.ts): messages, conversation metadata,
  conversations, save options and saved-conversation descriptors;
* the two formatters (src/formatters/json.ts and src/formatters/markdown.ts):
  the JSON formatter is modelled at the level of JSON values (the composition
  JSON.parse after JSON.stringify is the identity on the JSON values the
  formatter produces, so serialising the tree to text and re-reading it is
  not re-modelled); the markdown formatter is modelled at the level of
  strings, character by character;
* the local storage provider (src/storage/local.ts): the in-memory index,
  the thread files and the on-disk index file are modelled as explicit state,
  and each operation is a function from state to result and next state;
* the update engine (src/tools/update-thread.ts) and the search/filter
  engine (src/tools/find-threads.ts).

Environment-dependent pieces of the source (crypto.randomUUID, Date.now,
new Date(x).getTime, toLocaleString, toISOString) are modelled as explicit
parameters, since their values depend on the runtime environment and not on
the code under verification.

JavaScript string primitives (toLowerCase, includes, trim, split, slice,
indexOf) are re-implemented here over lists of characters so that every
definition evaluates inside the kernel; they agree with the JavaScript
primitives on the ASCII strings that appear in all concrete inputs used
below.
-/

namespace ThreadMcp

/-! ## JavaScript string primitives, modelled over lists of characters -/

/-- Whitespace as matched by the JavaScript regexp class backslash-s and by
String.prototype.trim, restricted to ASCII: tab, linefeed, vertical tab,
formfeed, carriage return and space. -/
def jsIsWs (c : Char) : Bool :=
  decide (c.toNat = 9) || decide (c.toNat = 10) || decide (c.toNat = 11) ||
  decide (c.toNat = 12) || decide (c.toNat = 13) || decide (c.toNat = 32)

/-- ASCII lower-casing of one character, as String.prototype.toLowerCase
acts on ASCII input. -/
def jsCharLower (c : Char) : Char :=
  if 65 ≤ c.toNat ∧ c.toNat ≤ 90 then Char.ofNat (c.toNat + 32) else c

/-- String.prototype.toLowerCase (ASCII fragment). -/
def jsToLower (s : String) : String :=
  ⟨s.data.map jsCharLower⟩

/-- String.prototype.trim over a character list. -/
def listTrim (l : List Char) : List Char :=
  ((l.dropWhile jsIsWs).reverse.dropWhile jsIsWs).reverse

/-- String.prototype.trim. -/
def jsTrim (s : String) : String :=
  ⟨listTrim s.data⟩

/-- Decides whether the pattern list occurs as a leading segment. -/
def listStarts : List Char → List Char → Bool
  | [], _ => true
  | _ :: _, [] => false
  | p :: ps, c :: cs => decide (p = c) && listStarts ps cs

/-- String.prototype.includes over character lists: the pattern occurs as a
contiguous segment somewhere. -/
def listIncl (hay pat : List Char) : Bool :=
  match hay with
  | [] => listStarts pat []
  | _ :: rest => listStarts pat hay || listIncl rest pat

/-- String.prototype.includes. -/
def strIncl (hay pat : String) : Bool :=
  listIncl hay.data pat.data

/-- Index of the first occurrence of the pattern as a contiguous segment,
as String.prototype.indexOf returns it (none instead of -1). -/
def listIdxOfSeg (hay pat : List Char) : Option Nat :=
  match hay with
  | [] => if listStarts pat [] then some 0 else none
  | _ :: rest =>
    if listStarts pat hay then some 0
    else (listIdxOfSeg rest pat).map (· + 1)

/-- Index of the first occurrence of one character, as indexOf on a
one-character needle. -/
def listIdxOfChar (l : List Char) (c : Char) : Option Nat :=
  listIdxOfSeg l [c]

/-- String.prototype.split on a single separator character. -/
def listSplitChar (sep : Char) : List Char → List (List Char)
  | [] => [[]]
  | c :: cs =>
    let r := listSplitChar sep cs
    if c = sep then [] :: r
    else
      match r with
      | [] => [[c]]
      | h :: t => (c :: h) :: t

/-- String.prototype.split(sep) on a single-character separator. -/
def jsSplitChar (s : String) (sep : Char) : List String :=
  (listSplitChar sep s.data).map (fun l => ⟨l⟩)

/-- String.prototype.split on a separator string (used for splitting a
tag list on commas). -/
def listSplitOnSeg (sep : List Char) (l : List Char) (fuel : Nat) : List (List Char) :=
  match fuel with
  | 0 => [l]
  | fuel + 1 =>
    match listIdxOfSeg l sep with
    | none => [l]
    | some i => l.take i :: listSplitOnSeg sep (l.drop (i + sep.length)) fuel

/-- String.prototype.split(sep) for a nonempty separator string. -/
def jsSplitOn (s sep : String) : List String :=
  (listSplitOnSeg sep.data s.data s.data.length).map (fun l => ⟨l⟩)

/-- Array.prototype.join(sep). -/
def jsJoin (sep : String) : List String → String
  | [] => ""
  | [x] => x
  | x :: xs => x ++ sep ++ jsJoin sep xs

/-- Truthiness of an optional JavaScript string: undefined and the empty
string are falsy, every other string is truthy. -/
def jsTruthy : Option String → Bool
  | none => false
  | some s => !(s == "")

/-- The JavaScript or-else operator a || b on optional strings: the left
operand when it is truthy, otherwise the right operand. -/
def jsOrElse (a b : Option String) : Option String :=
  if jsTruthy a then a else b

/-- Worker for jsSetDedup, carrying the set of strings seen so far. -/
def jsSetDedupGo : List String → List String → List String
  | [], _ => []
  | x :: xs, seen =>
    if seen.elem x then jsSetDedupGo xs seen else x :: jsSetDedupGo xs (x :: seen)

/-- Spreading a list through a JavaScript Set and back into an array keeps
the first occurrence of each element, in insertion order. -/
def jsSetDedup (l : List String) : List String :=
  jsSetDedupGo l []

/-! ## Data model (src/types.ts) -/

/-- MessageRoleSchema: enum of user, assistant, system. -/
inductive MessageRole
  | user
  | assistant
  | system
deriving DecidableEq, Repr

/-- MessageSchema: role, content, optional ISO-8601 timestamp. -/
structure Message where
  role : MessageRole
  content : String
  timestamp : Option String
deriving DecidableEq, Repr

/-- ConversationMetadataSchema. Optional fields are modelled as Option;
an absent field and a JavaScript undefined field are both none. -/
structure ConversationMetadata where
  title : String
  sourceApp : Option String
  createdAt : String
  updatedAt : Option String
  tags : Option (List String)
  summary : Option String
deriving DecidableEq, Repr

/-- ConversationSchema: id, metadata, ordered message list. -/
structure Conversation where
  id : String
  metadata : ConversationMetadata
  messages : List Message
deriving DecidableEq, Repr

/-- OutputFormatSchema: markdown or json. -/
inductive OutputFormat
  | markdown
  | json
deriving DecidableEq, Repr

/-- SaveOptionsSchema (defaults already applied by schema validation). -/
structure SaveOptions where
  format : OutputFormat
  includeMetadata : Bool
  includeTimestamps : Bool
deriving DecidableEq, Repr

/-- SavedConversationInfoSchema: the lightweight index descriptor. -/
structure SavedConversationInfo where
  id : String
  title : String
  filePath : Option String
  remoteUrl : Option String
  format : OutputFormat
  savedAt : String
  sourceApp : Option String
deriving DecidableEq, Repr

/-- Text of a role as the markdown formatter labels it: the enum string
with its first character upper-cased. -/
def MessageRole.label : MessageRole → String
  | .user => "User"
  | .assistant => "Assistant"
  | .system => "System"

/-- Text of a role as stored in the JSON encoding. -/
def MessageRole.text : MessageRole → String
  | .user => "user"
  | .assistant => "assistant"
  | .system => "system"

/-- Reading a role back from its JSON string. -/
def MessageRole.ofText : String → Option MessageRole
  | "user" => some .user
  | "assistant" => some .assistant
  | "system" => some .system
  | _ => none

/-! ## JSON values and the JSON formatter (src/formatters/json.ts)

The JSON formatter is modelled at the level of JSON values: the source
builds a plain object and runs JSON.stringify, and its parse runs JSON.parse
followed by ConversationSchema.parse.  Since JSON.parse after JSON.stringify
is the identity on the object trees this formatter builds (strings, arrays
and objects, with undefined-valued keys dropped by stringify, which the
embedding drops eagerly), the text serialisation layer is not re-modelled. -/

/-- JSON value trees produced and consumed by the JSON formatter. -/
inductive Json
  | str (s : String)
  | arr (elems : List Json)
  | obj (fields : List (String × Json))

/-- Property access on a parsed JSON object.  The formatter never emits a
duplicate key, so first-match lookup agrees with JavaScript semantics. -/
def jsonLookup (fields : List (String × Json)) (key : String) : Option Json :=
  (fields.find? (fun p => p.1 == key)).map (fun p => p.2)

/-- Optional string field of a JavaScript object as JSON.stringify emits
it: an undefined value is omitted together with its key. -/
def optStrField (key : String) (v : Option String) : List (String × Json) :=
  match v with
  | some s => [(key, .str s)]
  | none => []

/-- One message as the JSON formatter emits it: the timestamp key is
removed when includeTimestamps is false, and an undefined timestamp is
dropped by JSON.stringify. -/
def messageToJson (includeTimestamps : Bool) (msg : Message) : Json :=
  .obj ([("role", .str msg.role.text), ("content", .str msg.content)] ++
    (if includeTimestamps then optStrField "timestamp" msg.timestamp else []))

/-- The metadata object as JSON.stringify emits conversation.metadata
(undefined-valued fields dropped, declaration key order kept). -/
def metadataToJson (m : ConversationMetadata) : Json :=
  .obj ([("title", .str m.title)] ++
    optStrField "sourceApp" m.sourceApp ++
    [("createdAt", .str m.createdAt)] ++
    optStrField "updatedAt" m.updatedAt ++
    (match m.tags with
     | some ts => [("tags", .arr (ts.map .str))]
     | none => []) ++
    optStrField "summary" m.summary)

/-- jsonFormatter.format: id, then the metadata object when
options.includeMetadata is set, then the message array. -/
def jsonFormat (conversation : Conversation) (options : SaveOptions) : Json :=
  .obj ([("id", .str conversation.id)] ++
    (if options.includeMetadata then
      [("metadata", metadataToJson conversation.metadata)]
     else []) ++
    [("messages",
      .arr (conversation.messages.map (messageToJson options.includeTimestamps)))])

/-! Zod validation (ConversationSchema in src/types.ts), as run by
jsonFormatter.parse.  Failure of any check makes the whole parse throw,
modelled as none. -/

/-- ASCII digit test. -/
def isDigitCh (c : Char) : Bool :=
  decide (48 ≤ c.toNat) && decide (c.toNat ≤ 57)

/-- One or more digits followed by a final Z (the fractional-seconds tail
of the zod datetime pattern). -/
def fracDigitsZ : List Char → Bool
  | [] => false
  | c :: rest =>
    isDigitCh c &&
      (match rest with
       | ['Z'] => true
       | _ => fracDigitsZ rest)

/-- The default z.string().datetime() pattern: four digit year, two digit
month, day, hour, minute and second, optional fractional seconds, and a
mandatory trailing Z with no UTC offset. -/
def isDatetime (s : String) : Bool :=
  match s.data with
  | y1 :: y2 :: y3 :: y4 :: '-' :: mo1 :: mo2 :: '-' :: d1 :: d2 :: 'T' ::
      h1 :: h2 :: ':' :: mi1 :: mi2 :: ':' :: se1 :: se2 :: rest =>
    ([y1, y2, y3, y4, mo1, mo2, d1, d2, h1, h2, mi1, mi2, se1, se2].all isDigitCh) &&
      (match rest with
       | ['Z'] => true
       | '.' :: rest2 => fracDigitsZ rest2
       | _ => false)
  | _ => false

/-- z.string(). -/
def zodString : Json → Option String
  | .str s => some s
  | _ => none

/-- z.string().datetime(). -/
def zodDatetime (j : Json) : Option String :=
  match j with
  | .str s => if isDatetime s then some s else none
  | _ => none

/-- An optional object property: an absent key validates to none, a
present key must satisfy the field validator. -/
def zodOptional (f : Json → Option α) (fields : List (String × Json))
    (key : String) : Option (Option α) :=
  match jsonLookup fields key with
  | none => some none
  | some v => (f v).map some

/-- A required object property. -/
def zodRequired (f : Json → Option α) (fields : List (String × Json))
    (key : String) : Option α :=
  (jsonLookup fields key).bind f

/-- Element-wise validation of an array: zod validates each element in
order and the whole parse fails on the first failing element. -/
def optionMapM (f : α → Option β) : List α → Option (List β)
  | [] => some []
  | x :: xs => (f x).bind fun y => (optionMapM f xs).map fun ys => y :: ys

/-- z.array(z.string()). -/
def zodStringArray : Json → Option (List String)
  | .arr es => optionMapM zodString es
  | _ => none

/-- MessageRoleSchema as a validator. -/
def zodRole (j : Json) : Option MessageRole :=
  (zodString j).bind MessageRole.ofText

/-- MessageSchema as a validator. -/
def zodMessage : Json → Option Message
  | .obj fields => do
    let role ← zodRequired zodRole fields "role"
    let content ← zodRequired zodString fields "content"
    let timestamp ← zodOptional zodDatetime fields "timestamp"
    pure { role, content, timestamp }
  | _ => none

/-- ConversationMetadataSchema as a validator. -/
def zodMetadata : Json → Option ConversationMetadata
  | .obj fields => do
    let title ← zodRequired zodString fields "title"
    let sourceApp ← zodOptional zodString fields "sourceApp"
    let createdAt ← zodRequired zodDatetime fields "createdAt"
    let updatedAt ← zodOptional zodDatetime fields "updatedAt"
    let tags ← zodOptional zodStringArray fields "tags"
    let summary ← zodOptional zodString fields "summary"
    pure { title, sourceApp, createdAt, updatedAt, tags, summary }
  | _ => none

/-- z.array(MessageSchema). -/
def zodMessageArray : Json → Option (List Message)
  | .arr es => optionMapM zodMessage es
  | _ => none

/-- Timestamp side condition of one message, as validConversation imposes
it. -/
def validTimestamp (m : Message) : Bool :=
  match m.timestamp with
  | some ts => isDatetime ts
  | none => true

/-- ConversationSchema.parse: jsonFormatter.parse runs this on the value
produced by JSON.parse. -/
def conversationSchemaParse : Json → Option Conversation
  | .obj fields => do
    let id ← zodRequired zodString fields "id"
    let metadata ← zodRequired zodMetadata fields "metadata"
    let messages ← zodRequired zodMessageArray fields "messages"
    pure { id, metadata, messages }
  | _ => none

/-- Schema-validity of an in-memory conversation: exactly the string-format
side conditions ConversationSchema imposes beyond the structure itself
(createdAt, updatedAt and message timestamps must match the datetime
pattern). -/
def validConversation (c : Conversation) : Bool :=
  isDatetime c.metadata.createdAt &&
    (match c.metadata.updatedAt with
     | some u => isDatetime u
     | none => true) &&
    c.messages.all validTimestamp

/-! Round-trip of the JSON encoding at the level of JSON values. -/

theorem zodString_map_str (ts : List String) :
    optionMapM zodString (ts.map Json.str) = some ts := by
  induction ts with
  | nil => rfl
  | cons t rest ih => simp [optionMapM, zodString, ih]

theorem zodMessage_roundtrip (m : Message) (h : validTimestamp m = true) :
    zodMessage (messageToJson true m) = some m := by
  obtain ⟨role, content, timestamp⟩ := m
  cases timestamp with
  | none =>
    cases role <;>
      simp [messageToJson, zodMessage, zodRequired, zodOptional, jsonLookup,
        optStrField, zodRole, zodString, MessageRole.text, MessageRole.ofText]
  | some ts =>
    simp [validTimestamp] at h
    cases role <;>
      simp [messageToJson, zodMessage, zodRequired, zodOptional, jsonLookup,
        optStrField, zodRole, zodString, zodDatetime, MessageRole.text,
        MessageRole.ofText, h]

theorem zodMessage_map_roundtrip (l : List Message)
    (h : l.all validTimestamp = true) :
    optionMapM zodMessage (l.map (messageToJson true)) = some l := by
  induction l with
  | nil => rfl
  | cons m rest ih =>
    simp only [List.all_cons, Bool.and_eq_true] at h
    simp [optionMapM, zodMessage_roundtrip m h.1, ih h.2]

theorem zodMetadata_roundtrip (m : ConversationMetadata)
    (h1 : isDatetime m.createdAt = true)
    (h2 : (match m.updatedAt with
           | some u => isDatetime u
           | none => true) = true) :
    zodMetadata (metadataToJson m) = some m := by
  obtain ⟨title, sourceApp, createdAt, updatedAt, tags, summary⟩ := m
  simp only at h1 h2
  cases sourceApp <;> cases updatedAt <;> cases tags <;> cases summary <;>
    simp_all [metadataToJson, zodMetadata, zodRequired, zodOptional, jsonLookup,
      optStrField, zodString, zodDatetime, zodStringArray, zodString_map_str]

/-- Parsing the JSON value the formatter produced with metadata and
timestamps both included recovers the conversation exactly, for every
schema-valid conversation. -/
theorem jsonFormat_roundtrip (t : Conversation) (opts : SaveOptions)
    (hm : opts.includeMetadata = true) (ht : opts.includeTimestamps = true)
    (hv : validConversation t = true) :
    conversationSchemaParse (jsonFormat t opts) = some t := by
  obtain ⟨id, metadata, messages⟩ := t
  simp only [validConversation, Bool.and_eq_true] at hv
  obtain ⟨⟨h1, h2⟩, h3⟩ := hv
  simp [jsonFormat, conversationSchemaParse, zodRequired, jsonLookup, hm, ht,
    zodString, zodMetadata_roundtrip metadata h1 h2, zodMessageArray,
    zodMessage_map_roundtrip messages h3]

/-! ## Markdown formatter (src/formatters/markdown.ts)

The markdown formatter is modelled at string level.  Environment-dependent
primitives are collected in MdEnv: crypto.randomUUID and the current time
(used by parse as fallbacks), toLocaleString (used by format to render
message timestamps) and the composition of the Date constructor with
toISOString (used by parse to normalise message timestamps; none models an
invalid date). -/

/-- Runtime environment of the markdown formatter. -/
structure MdEnv where
  randomUUID : String
  nowIso : String
  locale : String → String
  parseDateIso : String → Option String

/-- Truthiness of a JavaScript string: only the empty string is falsy. -/
def strTruthy (s : String) : Bool :=
  !(s == "")

/-- First defined result of the function over the list. -/
def findFirstSome (f : α → Option β) : List α → Option β
  | [] => none
  | x :: xs =>
    match f x with
    | some b => some b
    | none => findFirstSome f xs

/-- formatMessage: role heading, optional locale-rendered timestamp, blank
line, content, newline. -/
def formatMessage (env : MdEnv) (message : Message) (includeTimestamps : Bool) :
    String :=
  let roleLabel := message.role.label
  let timestamp :=
    if includeTimestamps && jsTruthy message.timestamp then
      " _(" ++ env.locale (message.timestamp.getD "") ++ ")_"
    else ""
  "### " ++ roleLabel ++ timestamp ++ "\n\n" ++ message.content ++ "\n"

/-- formatMetadata: the YAML-style front matter block.  Falsy (undefined or
empty) updatedAt and sourceApp are omitted, as is an empty tag list. -/
def formatMetadata (conversation : Conversation) : String :=
  let m := conversation.metadata
  let lines := ["---", "id: " ++ conversation.id,
    "title: \"" ++ m.title ++ "\"", "created_at: " ++ m.createdAt]
  let lines := lines ++
    (if jsTruthy m.updatedAt then ["updated_at: " ++ m.updatedAt.getD ""] else [])
  let lines := lines ++
    (if jsTruthy m.sourceApp then ["source_app: " ++ m.sourceApp.getD ""] else [])
  let lines := lines ++
    (match m.tags with
     | some ts =>
       if 0 < ts.length then
         ["tags: [" ++ jsJoin ", " (ts.map (fun t => "\"" ++ t ++ "\"")) ++ "]"]
       else []
     | none => [])
  let lines := lines ++ ["---\n"]
  jsJoin "\n" lines

/-- markdownFormatter.format: optional front matter, title heading,
optional summary quote, conversation heading, formatted messages, all
joined by newlines. -/
def mdFormat (env : MdEnv) (conversation : Conversation) (options : SaveOptions) :
    String :=
  let parts := if options.includeMetadata then [formatMetadata conversation] else []
  let parts := parts ++ ["# " ++ conversation.metadata.title ++ "\n"]
  let parts := parts ++
    (if jsTruthy conversation.metadata.summary then
      ["> " ++ conversation.metadata.summary.getD "" ++ "\n"]
     else [])
  let parts := parts ++ ["## Conversation\n"]
  let parts := parts ++
    conversation.messages.map (fun msg => formatMessage env msg options.includeTimestamps)
  jsJoin "\n" parts

/-- Keyed assignment on a JavaScript record or Map: overwrites the
existing binding in place (keys are unique, so overwriting the first match
keeps insertion order), otherwise appends. -/
def recordSet : List (String × α) → String → α → List (String × α)
  | [], key, v => [(key, v)]
  | p :: rest, key, v =>
    if p.1 == key then (key, v) :: rest else p :: recordSet rest key v

/-- Keyed read on a JavaScript record or Map: none models undefined. -/
def recordGet (data : List (String × α)) (key : String) : Option α :=
  (data.find? (fun p => p.1 == key)).map (fun p => p.2)

/-- Map.prototype.delete: drops the binding for the key. -/
def recordRemove (data : List (String × α)) (key : String) : List (String × α) :=
  data.filter (fun p => !(p.1 == key))

/-- JavaScript slice(1, -1): drop the first and the last character. -/
def jsSlice1m1 (l : List Char) : List Char :=
  (l.drop 1).dropLast

/-- Quote stripping in parseMetadata: when the value both starts and ends
with a double quote, slice(1, -1) removes them. -/
def stripWrappingQuotes (v : String) : String :=
  let starts := match v.data with
    | '"' :: _ => true
    | _ => false
  let ends := match v.data.getLast? with
    | some '"' => true
    | _ => false
  if starts && ends then ⟨jsSlice1m1 v.data⟩ else v

/-- The key/value record parseMetadata accumulates over the non-blank
front matter lines: split each line at its first colon, trim both halves,
strip wrapping quotes from the value. -/
def parseMetadataData (frontmatter : String) : List (String × String) :=
  let lines := (jsSplitChar frontmatter '\n').filter (fun l => strTruthy (jsTrim l))
  lines.foldl
    (fun data line =>
      match listIdxOfChar line.data ':' with
      | none => data
      | some ci =>
        let key := jsTrim ⟨line.data.take ci⟩
        let value := stripWrappingQuotes (jsTrim ⟨line.data.drop (ci + 1)⟩)
        recordSet data key value)
    []

/-- Index of the last occurrence of a character. -/
def listLastIdxOfChar (l : List Char) (c : Char) : Option Nat :=
  (listIdxOfChar l.reverse c).map (fun k => l.length - 1 - k)

/-- Group of the regexp match tags.match(bracket (.+) bracket): the segment
strictly between the first opening bracket and the last closing bracket,
provided at least one character lies between them. -/
def bracketInner (v : String) : Option String :=
  match listIdxOfChar v.data '[', listLastIdxOfChar v.data ']' with
  | some i, some j =>
    if i + 2 ≤ j then some ⟨(v.data.take j).drop (i + 1)⟩ else none
  | _, _ => none

/-- The replace(leading-quote or trailing-quote, "") step applied to each
parsed tag: removes one leading and one trailing double quote. -/
def stripEdgeQuotes (s : String) : String :=
  let l := s.data
  let l := match l with
    | '"' :: rest => rest
    | other => other
  let l := match l.getLast? with
    | some '"' => l.dropLast
    | _ => l
  ⟨l⟩

/-- parseMetadata: returns (id, metadata) from the front matter text, or
none when any of the id, title or created_at entries is absent or empty. -/
def parseMetadata (frontmatter : String) :
    Option (String × ConversationMetadata) :=
  let data := parseMetadataData frontmatter
  if !(jsTruthy (recordGet data "id")) || !(jsTruthy (recordGet data "title")) ||
      !(jsTruthy (recordGet data "created_at")) then
    none
  else
    let tags : Option (List String) :=
      match recordGet data "tags" with
      | some tv =>
        if strTruthy tv then
          match bracketInner tv with
          | some inner =>
            some ((jsSplitOn inner ",").map (fun t => stripEdgeQuotes (jsTrim t)))
          | none => none
        else none
      | none => none
    some ((recordGet data "id").getD "",
      { title := (recordGet data "title").getD "",
        createdAt := (recordGet data "created_at").getD "",
        updatedAt := recordGet data "updated_at",
        sourceApp := recordGet data "source_app",
        tags := tags,
        summary := none })

/-- Front matter match (anchored regexp three-dashes newline, lazy body,
newline three-dashes): the lazy group ends at the first later occurrence of
newline-dashes.  Returns the group and the length of the whole match. -/
def fmMatch (content : String) : Option (String × Nat) :=
  let cs := content.data
  if listStarts ['-', '-', '-', '\n'] cs then
    match listIdxOfSeg (cs.drop 4) ['\n', '-', '-', '-'] with
    | some k => some (⟨(cs.drop 4).take k⟩, 4 + k + 4)
    | none => none
  else none

/-- One line matched against the title pattern (hash, one or more
whitespace, one or more characters, end of line): the trimmed capture.
After the mandatory leading whitespace the trim makes the capture equal to
the trim of everything after the hash. -/
def titleLineMatch (l : List Char) : Option String :=
  match l with
  | '#' :: c :: c2 :: rest =>
    if jsIsWs c then some (jsTrim ⟨c :: c2 :: rest⟩) else none
  | _ => none

/-- One line matched against the summary pattern (greater-than sign, one or
more whitespace, one or more characters, end of line). -/
def summaryLineMatch (l : List Char) : Option String :=
  match l with
  | '>' :: c :: c2 :: rest =>
    if jsIsWs c then some (jsTrim ⟨c :: c2 :: rest⟩) else none
  | _ => none

/-- Case-insensitive prefix test against an already lower-cased pattern. -/
def listStartsCI : List Char → List Char → Bool
  | [], _ => true
  | _ :: _, [] => false
  | p :: ps, c :: cs => decide (p = jsCharLower c) && listStartsCI ps cs

/-- Role alternation of the message regexp, tried in source order and
case-insensitively; returns the role and the remaining characters. -/
def matchRole (cs : List Char) : Option (MessageRole × List Char) :=
  if listStartsCI "user".data cs then some (.user, cs.drop 4)
  else if listStartsCI "assistant".data cs then some (.assistant, cs.drop 9)
  else if listStartsCI "system".data cs then some (.system, cs.drop 6)
  else none

/-- Candidate splits of the lazy timestamp capture: every nonempty
newline-free leading segment that is immediately followed by a closing
parenthesis and an underscore, in increasing length order (the order a lazy
quantifier explores). -/
def closeParenSplits (cs : List Char) : List (List Char × List Char) :=
  (List.range cs.length).filterMap (fun j =>
    if 1 ≤ j ∧ listStarts [')', '_'] (cs.drop j) ∧
        (cs.take j).all (fun c => !(c = '\n' || c = '\r')) then
      some (cs.take j, cs.drop (j + 2))
    else none)

/-- Match of whitespace-star newline newline: the greedy star takes the
longest whitespace prefix that still leaves a double newline, so the double
newline matched is the last one inside the leading whitespace run.  Returns
the characters after it. -/
def wsNlNl (cs : List Char) : Option (List Char) :=
  let run := cs.takeWhile jsIsWs
  match (List.range (run.length - 1)).reverse.find?
      (fun p => decide ((run.drop p).take 2 = ['\n', '\n'])) with
  | some p => some (cs.drop (p + 2))
  | none => none

/-- Lazy body of one message: everything up to the first occurrence of
newline-hash-hash-hash-space (left unconsumed, it is a lookahead) or to the
end of the input. -/
def takeBody (cs : List Char) : List Char × List Char :=
  match listIdxOfSeg cs ['\n', '#', '#', '#', ' '] with
  | some i => (cs.take i, cs.drop i)
  | none => (cs, [])

/-- Attempt of the message regexp at the start of the given suffix:
hash-hash-hash-space, role alternation, optional timestamp group (preferred
by the engine, its lazy capture explored shortest first, each candidate
continued with the whitespace-newline-newline separator; the group is
dropped when no candidate continues), separator, lazy body.  Returns the
parsed message and the unconsumed suffix. -/
def tryMatchMessage (env : MdEnv) (cs : List Char) :
    Option (Message × List Char) :=
  if listStarts ['#', '#', '#', ' '] cs then
    match matchRole (cs.drop 4) with
    | none => none
    | some (role, afterRole) =>
      let run := afterRole.takeWhile jsIsWs
      let groupCands : List (Option (List Char) × List Char) :=
        (if 1 ≤ run.length ∧ listStarts ['_', '('] (afterRole.drop run.length) then
          (closeParenSplits (afterRole.drop (run.length + 2))).map
            (fun pr => (some pr.1, pr.2))
         else []) ++ [(none, afterRole)]
      match findFirstSome
          (fun pr => (wsNlNl pr.2).map (fun after => (pr.1, after))) groupCands with
      | none => none
      | some (cap, afterSep) =>
        let bodyRest := takeBody afterSep
        let timestamp : Option String :=
          match cap with
          | some ts => env.parseDateIso ⟨ts⟩
          | none => none
        some ({ role := role, content := jsTrim ⟨bodyRest.1⟩,
                timestamp := timestamp }, bodyRest.2)
  else none

/-- Global exec loop of the message regexp: the engine advances one
character at a time until an attempt succeeds, then resumes after the
match.  Fuel bounds the recursion by the input length. -/
def parseMessagesAux (env : MdEnv) : Nat → List Char → List Message
  | 0, _ => []
  | _, [] => []
  | fuel + 1, cs@(_ :: rest) =>
    match tryMatchMessage env cs with
    | some (msg, remaining) => msg :: parseMessagesAux env fuel remaining
    | none => parseMessagesAux env fuel rest

/-- parseMessages. -/
def parseMessages (env : MdEnv) (content : String) : List Message :=
  parseMessagesAux env (content.data.length + 1) content.data

/-- markdownFormatter.parse: front matter (falling back to a fresh id and
a default title and creation time), title heading (only adopted while the
title is still the default), summary quote, then the message blocks. -/
def mdParse (env : MdEnv) (content : String) : Conversation :=
  let id0 := env.randomUUID
  let metadata0 : ConversationMetadata :=
    { title := "Untitled Conversation", createdAt := env.nowIso,
      sourceApp := none, updatedAt := none, tags := none, summary := none }
  let step1 : String × ConversationMetadata × String :=
    match fmMatch content with
    | some (inner, matchLen) =>
      (match parseMetadata inner with
       | some pr => (pr.1, pr.2, ⟨content.data.drop matchLen⟩)
       | none => (id0, metadata0, ⟨content.data.drop matchLen⟩))
    | none => (id0, metadata0, content)
  let id1 := step1.1
  let metadata1 := step1.2.1
  let content1 := step1.2.2
  let metadata2 :=
    match findFirstSome titleLineMatch (listSplitChar '\n' content1.data) with
    | some t =>
      if metadata1.title == "Untitled Conversation" then
        { metadata1 with title := t }
      else metadata1
    | none => metadata1
  let metadata3 :=
    match findFirstSome summaryLineMatch (listSplitChar '\n' content1.data) with
    | some sm => { metadata2 with summary := some sm }
    | none => metadata2
  { id := id1, metadata := metadata3, messages := parseMessages env content1 }

/-! ## Formatter records and dispatch (src/formatters/index.ts) -/

/-- Contents of one stored file.  The JSON formatter writes a JSON value
(its text serialisation is invertible and not re-modelled), the markdown
formatter writes text. -/
inductive FileData
  | text (s : String)
  | jsonVal (j : Json)

/-- A Formatter as the storage layer consumes it.  Parse failure (a thrown
error in the source) is modelled as none. -/
structure FormatterM where
  extension : String
  format : Conversation → SaveOptions → FileData
  parse : FileData → Option Conversation

/-- jsonFormatter.  Parsing text that is not a stored JSON value models
JSON.parse throwing; storage never produces that case for a json file. -/
def jsonFormatterM : FormatterM where
  extension := ".json"
  format := fun c o => .jsonVal (jsonFormat c o)
  parse := fun d =>
    match d with
    | .jsonVal j => conversationSchemaParse j
    | .text _ => none

/-- markdownFormatter.  A markdown file is always stored as text; the
JSON-value case is unreachable through storage. -/
def markdownFormatterM (env : MdEnv) : FormatterM where
  extension := ".md"
  format := fun c o => .text (mdFormat env c o)
  parse := fun d =>
    match d with
    | .text s => some (mdParse env s)
    | .jsonVal _ => none

/-- getFormatter. -/
def getFormatter (env : MdEnv) : OutputFormat → FormatterM
  | .markdown => markdownFormatterM env
  | .json => jsonFormatterM

/-! ## Local storage (src/storage/local.ts)

A LocalStorage value models one initialised store instance (loadIndex has
already run; on an initialised instance loadIndex returns immediately, so
it is the identity here): the in-memory index (a Map keyed by thread id,
in insertion order), the directory of thread files, and the semantic
contents of the on-disk index file (what saveIndex last flushed).  File
system entries either hold readable data or fail every operation with a
non-ENOENT error (modelling permission errors and the like); a path with
no entry fails with ENOENT. -/

/-- One path of the modelled file system. -/
inductive FileEntry
  | stored (d : FileData)
  | ioBroken

/-- Error codes distinguished by the source: ENOENT versus everything
else. -/
inductive IOErr
  | enoent
  | other
deriving DecidableEq, Repr

/-- readFile. -/
def fsRead (fs : List (String × FileEntry)) (path : String) :
    Except IOErr FileData :=
  match recordGet fs path with
  | none => .error .enoent
  | some (.stored d) => .ok d
  | some .ioBroken => .error .other

/-- writeFile: creates or overwrites. -/
def fsWrite (fs : List (String × FileEntry)) (path : String) (d : FileData) :
    List (String × FileEntry) :=
  recordSet fs path (.stored d)

/-- unlink. -/
def fsUnlink (fs : List (String × FileEntry)) (path : String) :
    Except IOErr (List (String × FileEntry)) :=
  match recordGet fs path with
  | none => .error .enoent
  | some .ioBroken => .error .other
  | some (.stored _) => .ok (recordRemove fs path)

/-- State of one initialised LocalStorage instance. -/
structure LocalStorage where
  baseDir : String
  index : List (String × SavedConversationInfo)
  diskIndex : List SavedConversationInfo
  fs : List (String × FileEntry)

/-- Lower-case letter or digit, the characters sanitizeFilename keeps. -/
def isLowerAlnum (c : Char) : Bool :=
  (decide (97 ≤ c.toNat) && decide (c.toNat ≤ 122)) ||
    (decide (48 ≤ c.toNat) && decide (c.toNat ≤ 57))

/-- Replacement of every run of characters outside [a-z0-9] by a single
hyphen; the flag records whether a run is currently open. -/
def collapseRuns (inRun : Bool) : List Char → List Char
  | [] => []
  | c :: rest =>
    if isLowerAlnum c then c :: collapseRuns false rest
    else if inRun then collapseRuns true rest
    else '-' :: collapseRuns true rest

/-- sanitizeFilename: lower-case, collapse non-alphanumeric runs to one
hyphen, strip leading and trailing hyphens, truncate to 100 characters. -/
def sanitizeFilename (title : String) : String :=
  let collapsed := collapseRuns false (jsToLower title).data
  let stripped :=
    ((collapsed.dropWhile (fun c => c = '-')).reverse.dropWhile
      (fun c => c = '-')).reverse
  ⟨stripped.take 100⟩

/-- File path save writes to: the base directory joined with the
sanitized title, a hyphen, the first eight characters of the id, and the
formatter extension. -/
def saveFilePath (env : MdEnv) (conversation : Conversation)
    (options : SaveOptions) (s : LocalStorage) : String :=
  s.baseDir ++ "/" ++
    (sanitizeFilename conversation.metadata.title ++ "-" ++
      (⟨conversation.id.data.take 8⟩ : String) ++
      (getFormatter env options.format).extension)

/-- Descriptor save records: id, title, the written path, format, the
current time as savedAt, and the conversation's sourceApp. -/
def saveDescriptor (env : MdEnv) (now : String) (conversation : Conversation)
    (options : SaveOptions) (s : LocalStorage) : SavedConversationInfo :=
  { id := conversation.id, title := conversation.metadata.title,
    filePath := some (saveFilePath env conversation options s),
    remoteUrl := none, format := options.format,
    savedAt := now, sourceApp := conversation.metadata.sourceApp }

/-- LocalStorage.save: format, write the thread file, upsert the
descriptor into the index, flush the index file.  The current time (for
savedAt) is a parameter. -/
def LocalStorage.save (env : MdEnv) (now : String) (conversation : Conversation)
    (options : SaveOptions) (s : LocalStorage) :
    SavedConversationInfo × LocalStorage :=
  let formatter := getFormatter env options.format
  let content := formatter.format conversation options
  let filePath := saveFilePath env conversation options s
  let fs1 := fsWrite s.fs filePath content
  let info := saveDescriptor env now conversation options s
  let index1 := recordSet s.index conversation.id info
  (info, { s with fs := fs1, index := index1, diskIndex := index1.map (fun p => p.2) })

/-- LocalStorage.list: the index values sorted by savedAt descending.  The
numeric value of a date string (getTime) is environment state, passed as a
parameter; the sort is stable, as Array.prototype.sort is. -/
def LocalStorage.list (timeOf : String → Int) (s : LocalStorage) :
    List SavedConversationInfo :=
  (s.index.map (fun p => p.2)).mergeSort
    (fun a b => timeOf b.savedAt ≤ timeOf a.savedAt)

/-- Failures LocalStorage.get can propagate: a non-ENOENT read error, or a
formatter parse error (re-thrown by the catch block, whose test only
swallows ENOENT). -/
inductive GetFailure
  | ioError
  | parseFailure
deriving DecidableEq, Repr

/-- LocalStorage.get: descriptor lookup (absent or falsy filePath gives
null), file read, formatter parse.  An ENOENT read self-heals: the stale
descriptor is dropped and the index flushed before returning null.  Any
other failure propagates and leaves the state unchanged. -/
def LocalStorage.get (env : MdEnv) (id : String) (s : LocalStorage) :
    Except GetFailure (Option Conversation) × LocalStorage :=
  match recordGet s.index id with
  | none => (.ok none, s)
  | some info =>
    match info.filePath with
    | none => (.ok none, s)
    | some p =>
      if !(strTruthy p) then (.ok none, s)
      else
        match fsRead s.fs p with
        | .ok d =>
          match (getFormatter env info.format).parse d with
          | some conv => (.ok (some conv), s)
          | none => (.error .parseFailure, s)
        | .error .enoent =>
          let index1 := recordRemove s.index id
          (.ok none, { s with index := index1, diskIndex := index1.map (fun p => p.2) })
        | .error .other => (.error .ioError, s)

/-- LocalStorage.delete: absent id returns false without touching
anything.  Otherwise the file is unlinked (a falsy filePath skips the
unlink, ENOENT is tolerated, any other unlink error propagates and leaves
the state unchanged), the index entry is removed, the index flushed, and
true returned. -/
def LocalStorage.delete (id : String) (s : LocalStorage) :
    Except IOErr Bool × LocalStorage :=
  match recordGet s.index id with
  | none => (.ok false, s)
  | some info =>
    let unlinked : Except IOErr (List (String × FileEntry)) :=
      match info.filePath with
      | none => .ok s.fs
      | some p =>
        if !(strTruthy p) then .ok s.fs
        else
          match fsUnlink s.fs p with
          | .ok fs1 => .ok fs1
          | .error .enoent => .ok s.fs
          | .error .other => .error .other
    match unlinked with
    | .error e => (.error e, s)
    | .ok fs1 =>
      let index1 := recordRemove s.index id
      (.ok true, { s with fs := fs1, index := index1,
                          diskIndex := index1.map (fun p => p.2) })

/-- Invariant of every reachable index: each Map key equals the id of the
descriptor stored under it (save always sets index[conversation.id] to a
descriptor with that id). -/
def keyConsistent (m : List (String × SavedConversationInfo)) : Bool :=
  m.all (fun p => p.1 == p.2.id)

/-! ## Update engine (src/tools/update-thread.ts) -/

/-- messagesEqual: role and content, timestamps ignored. -/
def messagesEqual (a b : Message) : Bool :=
  a.role == b.role && a.content == b.content

/-- deduplicateMessages: keeps each incoming message only when no existing
message equals it, preserving the incoming order. -/
def deduplicateMessages (existing incoming : List Message) : List Message :=
  match incoming with
  | [] => []
  | msg :: rest =>
    if existing.any (fun e => messagesEqual e msg) then
      deduplicateMessages existing rest
    else msg :: deduplicateMessages existing rest

/-- Update mode. -/
inductive UpdateMode
  | append
  | replace
deriving DecidableEq, Repr

/-- Message-list construction of updateThread: replace discards the
existing list; append concatenates, after deduplication when enabled. -/
def buildUpdatedMessages (mode : UpdateMode) (deduplicate : Bool)
    (existingMessages incoming : List Message) : List Message :=
  match mode with
  | .replace => incoming
  | .append =>
    let messagesToAdd :=
      if deduplicate then deduplicateMessages existingMessages incoming
      else incoming
    existingMessages ++ messagesToAdd

/-- Updated-conversation construction of updateThread: id kept, createdAt
and sourceApp kept through the metadata spread, title/tags/summary each
overridden only when an override is supplied (nullish coalescing),
updatedAt set to the current time, messages as computed. -/
def buildUpdatedConversation (existing : Conversation) (newTitle : Option String)
    (newTags : Option (List String)) (newSummary : Option String)
    (nowIso : String) (updatedMessages : List Message) : Conversation :=
  { id := existing.id,
    metadata :=
      { title := newTitle.getD existing.metadata.title,
        sourceApp := existing.metadata.sourceApp,
        createdAt := existing.metadata.createdAt,
        updatedAt := some nowIso,
        tags :=
          match newTags with
          | some ts => some ts
          | none => existing.metadata.tags,
        summary :=
          match newSummary with
          | some su => some su
          | none => existing.metadata.summary },
    messages := updatedMessages }

/-! ## Search and filtering (src/tools/find-threads.ts) -/

/-- Filter-relevant fields of FindThreadsInput (the remaining fields select
the storage backend and shape the output and do not enter matchesFilters or
calculateRelevance). -/
structure FindThreadsInput where
  title : Option String
  titleContains : Option String
  query : Option String
  tags : Option (List String)
  sourceApp : Option String
  dateFrom : Option String
  dateTo : Option String
deriving DecidableEq, Repr

/-- Comparison of two Date objects with the less-than operator: false
whenever either date is invalid (NaN compares false). -/
def jsDateLt (a b : Option Int) : Bool :=
  match a, b with
  | some x, some y => decide (x < y)
  | _, _ => false

/-- Comparison of two Date objects with the greater-than operator. -/
def jsDateGt (a b : Option Int) : Bool :=
  match a, b with
  | some x, some y => decide (y < x)
  | _, _ => false

/-- calculateRelevance.  dateMs models the getTime value of a date string
(none for an invalid date, whose NaN fails both age comparisons) and nowMs
models Date.now(); ageInDays is the exact rational the floating-point
division computes up to rounding that cannot affect the two comparisons on
integer millisecond inputs. -/
def calculateRelevance (dateMs : String → Option Int) (nowMs : Int)
    (conversation : Conversation) (info : SavedConversationInfo)
    (query titleContains : Option String) : Int × List String :=
  let searchTerm := jsOrElse query titleContains
  let scored : Int × List String :=
    if jsTruthy searchTerm then
      let termLower := jsToLower (searchTerm.getD "")
      let titleLower := jsToLower conversation.metadata.title
      let c1 := strIncl titleLower termLower
      let c2 := (conversation.metadata.summary.map
        (fun su => strIncl (jsToLower su) termLower)).getD false
      let c3 := jsTruthy query &&
        conversation.messages.any (fun m => strIncl (jsToLower m.content) termLower)
      let c4 := (conversation.metadata.tags.map
        (fun ts => ts.any (fun t => strIncl (jsToLower t) termLower))).getD false
      let score1 : Int := if c1 then 50 + 30 else 50
      let score2 : Int := if c2 then score1 + 20 else score1
      let score3 : Int := if c3 then score2 + 10 else score2
      let score4 : Int := if c4 then score3 + 15 else score3
      let fields1 : List String := if c1 then ["title"] else []
      let fields2 : List String := if c2 then fields1 ++ ["summary"] else fields1
      let fields3 : List String := if c3 then fields2 ++ ["content"] else fields2
      let fields4 : List String := if c4 then fields3 ++ ["tags"] else fields3
      (score4, fields4)
    else (50, [])
  let ageBonus : Int :=
    match dateMs info.savedAt with
    | none => 0
    | some ms =>
      if ((nowMs - ms : ℚ) / 86400000) < 7 then 10
      else if ((nowMs - ms : ℚ) / 86400000) < 30 then 5
      else 0
  (scored.1 + ageBonus, jsSetDedup scored.2)

/-- matchesFilters: the sequence of early returns of the source, one per
criterion; dateVal models the getTime value of a date string. -/
def matchesFilters (dateVal : String → Option Int)
    (conversation : Conversation) (input : FindThreadsInput) : Bool :=
  if jsTruthy input.title &&
      !(conversation.metadata.title == input.title.getD "") then false
  else if jsTruthy input.titleContains &&
      !(strIncl (jsToLower conversation.metadata.title)
        (jsToLower (input.titleContains.getD ""))) then false
  else if jsTruthy input.dateFrom &&
      jsDateLt (dateVal conversation.metadata.createdAt)
        (dateVal (input.dateFrom.getD "")) then false
  else if jsTruthy input.dateTo &&
      jsDateGt (dateVal conversation.metadata.createdAt)
        (dateVal (input.dateTo.getD "")) then false
  else if jsTruthy input.sourceApp &&
      !(conversation.metadata.sourceApp == input.sourceApp) then false
  else if (match input.tags with
           | some ts => decide (0 < ts.length)
           | none => false) &&
      !(match conversation.metadata.tags with
        | none => false
        | some cts =>
          (input.tags.getD []).all
            (fun t => cts.any (fun ct => jsToLower ct == jsToLower t))) then false
  else if jsTruthy input.query &&
      !(strIncl (jsToLower conversation.metadata.title)
          (jsToLower (input.query.getD "")) ||
        (conversation.metadata.summary.map
          (fun su => strIncl (jsToLower su)
            (jsToLower (input.query.getD "")))).getD false ||
        conversation.messages.any
          (fun m => strIncl (jsToLower m.content)
            (jsToLower (input.query.getD "")))) then false
  else true

/-! ## Spec-side reading of relevance scoring and filtering

The following definitions transcribe the wording of the specification
(claims C4 and C5); the theorems below compare them with the source-side
calculateRelevance and matchesFilters. -/

/-- Claim C4: the search term is a case-insensitive substring of the
title. -/
def hitTitle (conversation : Conversation) (term : String) : Bool :=
  strIncl (jsToLower conversation.metadata.title) (jsToLower term)

/-- Claim C4: the search term is a case-insensitive substring of the
summary (a missing summary never matches). -/
def hitSummary (conversation : Conversation) (term : String) : Bool :=
  (conversation.metadata.summary.map
    (fun su => strIncl (jsToLower su) (jsToLower term))).getD false

/-- Claim C4: the term is a case-insensitive substring of some message
content. -/
def hitContent (conversation : Conversation) (term : String) : Bool :=
  conversation.messages.any (fun m => strIncl (jsToLower m.content) (jsToLower term))

/-- Claim C4: some tag case-insensitively contains the term. -/
def hitTags (conversation : Conversation) (term : String) : Bool :=
  (conversation.metadata.tags.map
    (fun ts => ts.any (fun t => strIncl (jsToLower t) (jsToLower term)))).getD false

/-- Claim C4: the recency bonus on the age in days derived from savedAt:
10 under 7 days, else 5 under 30 days, else 0. -/
def recencyBonus (nowMs ms : Int) : Int :=
  if ((nowMs - ms : ℚ) / 86400000) < 7 then 10
  else if ((nowMs - ms : ℚ) / 86400000) < 30 then 5
  else 0

/-- Claim C5: exact-title criterion, skipped when absent. -/
def critTitle (conversation : Conversation) (input : FindThreadsInput) : Bool :=
  !(jsTruthy input.title) || (conversation.metadata.title == input.title.getD "")

/-- Claim C5: title-substring criterion (case-insensitive), skipped when
absent. -/
def critTitleContains (conversation : Conversation) (input : FindThreadsInput) :
    Bool :=
  !(jsTruthy input.titleContains) ||
    strIncl (jsToLower conversation.metadata.title)
      (jsToLower (input.titleContains.getD ""))

/-- Claim C5: creation-date lower bound, skipped when absent. -/
def critDateFrom (dateVal : String → Option Int) (conversation : Conversation)
    (input : FindThreadsInput) : Bool :=
  !(jsTruthy input.dateFrom) ||
    !(jsDateLt (dateVal conversation.metadata.createdAt)
      (dateVal (input.dateFrom.getD "")))

/-- Claim C5: creation-date upper bound, skipped when absent. -/
def critDateTo (dateVal : String → Option Int) (conversation : Conversation)
    (input : FindThreadsInput) : Bool :=
  !(jsTruthy input.dateTo) ||
    !(jsDateGt (dateVal conversation.metadata.createdAt)
      (dateVal (input.dateTo.getD "")))

/-- Claim C5: exact sourceApp criterion, skipped when absent. -/
def critSourceApp (conversation : Conversation) (input : FindThreadsInput) : Bool :=
  !(jsTruthy input.sourceApp) ||
    (conversation.metadata.sourceApp == input.sourceApp)

/-- Claim C5: at least one tag is requested. -/
def tagsRequested (input : FindThreadsInput) : Bool :=
  match input.tags with
  | some ts => decide (0 < ts.length)
  | none => false

/-- Claim C5: the thread carries all requested tags, by case-insensitive
exact match per tag; a thread without a tag list fails. -/
def tagsAllPresent (conversation : Conversation) (input : FindThreadsInput) : Bool :=
  match conversation.metadata.tags with
  | none => false
  | some cts =>
    (input.tags.getD []).all (fun t => cts.any (fun ct => jsToLower ct == jsToLower t))

/-- Claim C5: tag criterion, skipped when no tag is requested. -/
def critTags (conversation : Conversation) (input : FindThreadsInput) : Bool :=
  !(tagsRequested input) || tagsAllPresent conversation input

/-- Claim C5: the free-text query is a case-insensitive substring of the
title, or of the summary, or of at least one message content. -/
def queryFound (conversation : Conversation) (q : String) : Bool :=
  strIncl (jsToLower conversation.metadata.title) (jsToLower q) ||
    (conversation.metadata.summary.map
      (fun su => strIncl (jsToLower su) (jsToLower q))).getD false ||
    conversation.messages.any (fun m => strIncl (jsToLower m.content) (jsToLower q))

/-- Claim C5: free-text query criterion, skipped when absent. -/
def critQuery (conversation : Conversation) (input : FindThreadsInput) : Bool :=
  !(jsTruthy input.query) || queryFound conversation (input.query.getD "")

/-! ## Concrete instances used by witnesses and counterexamples -/

/-- A concrete existing conversation used to instantiate update-engine
theorems. -/
def exConversation : Conversation :=
  { id := "a",
    metadata := { title := "Old", sourceApp := some "Claude",
                  createdAt := "2024-01-01T00:00:00Z", updatedAt := none,
                  tags := some ["x"], summary := none },
    messages := [] }

/-- A concrete descriptor used to instantiate search theorems. -/
def exInfo : SavedConversationInfo :=
  { id := "a", title := "Old", filePath := some "/tmp/old-a.md",
    remoteUrl := none, format := .markdown,
    savedAt := "2024-01-01T00:00:00Z", sourceApp := some "Claude" }

/-- A concrete filter input used to instantiate claim C5. -/
def exInput : FindThreadsInput :=
  { title := none, titleContains := none, query := none,
    tags := some ["x", "y"], sourceApp := some "Claude",
    dateFrom := none, dateTo := none }

/-- A concrete markdown-formatter environment (its pieces are unused on
the inputs below: no message carries a timestamp and no front matter is
missing). -/
def exEnv : MdEnv :=
  { randomUUID := "generated-uuid", nowIso := "2024-06-01T00:00:00Z",
    locale := fun s => s, parseDateIso := fun _ => none }

/-- An initialised store over an empty directory. -/
def emptyStore : LocalStorage :=
  { baseDir := "/tmp/store", index := [], diskIndex := [], fs := [] }

/-- Save options: json with metadata and timestamps. -/
def optsJsonFull : SaveOptions :=
  { format := .json, includeMetadata := true, includeTimestamps := true }

/-- Save options: json without metadata. -/
def optsJsonNoMeta : SaveOptions :=
  { format := .json, includeMetadata := false, includeTimestamps := true }

/-- Save options: markdown with metadata and timestamps. -/
def optsMdFull : SaveOptions :=
  { format := .markdown, includeMetadata := true, includeTimestamps := true }

/-- A schema-valid conversation used for save/get round trips. -/
def exThread : Conversation :=
  { id := "abc-123",
    metadata := { title := "Demo", sourceApp := none,
                  createdAt := "2024-01-01T00:00:00Z", updatedAt := none,
                  tags := none, summary := none },
    messages := [{ role := .user, content := "hi", timestamp := none }] }

/-- A conversation the markdown formatter cannot reproduce: its tag list
is empty (formatted as no tags line, parsed back as absent) and its
message content carries a trailing space (trimmed by the parser). -/
def lossyThread : Conversation :=
  { id := "x",
    metadata := { title := "T", sourceApp := none,
                  createdAt := "2024-01-01T00:00:00Z", updatedAt := none,
                  tags := some [], summary := none },
    messages := [{ role := .user, content := "hi ", timestamp := none }] }

/-- Test for a successful get that returned a thread. -/
def isOkSomeThread : Except GetFailure (Option Conversation) → Bool
  | .ok (some _) => true
  | _ => false

/-- A descriptor whose recorded file is used in the self-healing and
deletion scenarios. -/
def staleInfo : SavedConversationInfo :=
  { id := "abc-123", title := "Demo",
    filePath := some "/tmp/store/demo-abc-123.json", remoteUrl := none,
    format := .json, savedAt := "2024-06-01T00:00:00Z", sourceApp := none }

/-- A store whose index records a file that does not exist on disk. -/
def staleStore : LocalStorage :=
  { baseDir := "/tmp/store", index := [("abc-123", staleInfo)],
    diskIndex := [staleInfo], fs := [] }

/-- The same store with the recorded file present but failing with a
non-ENOENT error. -/
def brokenStore : LocalStorage :=
  { baseDir := "/tmp/store", index := [("abc-123", staleInfo)],
    diskIndex := [staleInfo],
    fs := [("/tmp/store/demo-abc-123.json", .ioBroken)] }

/-! ## Helper lemmas on records, maps and messages -/

theorem recordGet_set_self (m : List (String × α)) (k : String) (v : α) :
    recordGet (recordSet m k v) k = some v := by
  induction m with
  | nil => simp [recordSet, recordGet]
  | cons p rest ih =>
    by_cases hpk : p.1 == k
    · simp [recordSet, recordGet, hpk, List.find?]
    · simp only [recordSet, hpk, Bool.false_eq_true, if_false]
      simpa [recordGet, List.find?, hpk] using ih

theorem recordGet_remove_self (m : List (String × α)) (k : String) :
    recordGet (recordRemove m k) k = none := by
  induction m with
  | nil => simp [recordRemove, recordGet]
  | cons p rest ih =>
    by_cases hpk : p.1 == k
    · simp only [recordRemove, List.filter_cons, hpk, Bool.not_true]
      exact ih
    · simp only [recordRemove, List.filter_cons, hpk, Bool.not_false, recordGet,
        List.find?] at ih ⊢
      simp [hpk]

theorem messagesEqual_self (m : Message) : messagesEqual m m = true := by
  simp [messagesEqual]

theorem iteFalseElse (c r : Bool) :
    (if c = true then (false : Bool) else r) = (!c && r) := by
  cases c <;> simp

theorem messagesEqual_congr (m1 m2 : Message) (h : messagesEqual m1 m2 = true) :
    ∀ x : Message, messagesEqual x m1 = messagesEqual x m2 := by
  intro x
  simp only [messagesEqual, Bool.and_eq_true, beq_iff_eq] at h ⊢
  rw [h.1, h.2]

theorem deduplicateMessages_eq_filter (e ms : List Message) :
    deduplicateMessages e ms =
      ms.filter (fun m => !(e.any (fun x => messagesEqual x m))) := by
  induction ms with
  | nil => rfl
  | cons m rest ih =>
    by_cases h : e.any (fun x => messagesEqual x m)
    · simp [deduplicateMessages, List.filter_cons, h, ih]
    · simp [deduplicateMessages, List.filter_cons, h, ih]

theorem countP_eq_zero_of_any_false (e : List Message) (m : Message)
    (h : e.any (fun x => messagesEqual x m) = false) :
    e.countP (fun x => messagesEqual x m) = 0 := by
  rw [List.countP_eq_zero]
  intro x hx
  have := List.any_eq_false.mp h x hx
  simpa using this

/-! ## Claim C3: append-mode update semantics -/

/-- C3: in append mode with deduplication on, updateThread produces the
existing messages followed by exactly the incoming messages with no
(role, content)-equal existing match, in incoming order; with
deduplication off it appends all incoming messages.  Appending the same
new message in two successive dedup-enabled calls leaves exactly one
(role, content)-equal copy, and appending one genuinely new message grows
the list by exactly one. -/
theorem C3_append_dedup_spec (e ms : List Message) (m : Message)
    (hnew : e.any (fun x => messagesEqual x m) = false) :
    buildUpdatedMessages .append true e ms =
      e ++ ms.filter (fun x => !(e.any (fun y => messagesEqual y x))) ∧
    buildUpdatedMessages .append false e ms = e ++ ms ∧
    (buildUpdatedMessages .append true
        (buildUpdatedMessages .append true e [m]) [m]).countP
      (fun x => messagesEqual x m) = 1 ∧
    (buildUpdatedMessages .append true e [m]).length = e.length + 1 := by
  refine ⟨?_, ?_, ?_, ?_⟩
  · simp [buildUpdatedMessages, deduplicateMessages_eq_filter]
  · simp [buildUpdatedMessages]
  · have h1 : buildUpdatedMessages .append true e [m] = e ++ [m] := by
      simp [buildUpdatedMessages, deduplicateMessages, hnew]
    rw [h1]
    have h2 : (e ++ [m]).any (fun x => messagesEqual x m) = true := by
      simp [List.any_append, messagesEqual_self]
    simp [buildUpdatedMessages, deduplicateMessages, h2, List.countP_append,
      countP_eq_zero_of_any_false e m hnew, List.countP_cons, messagesEqual_self]
  · simp [buildUpdatedMessages, deduplicateMessages, hnew]

/-- Witness for C3 at a concrete thread state. -/
theorem C3_append_dedup_spec_witness :
    buildUpdatedMessages .append true
        [⟨.user, "hi", none⟩] [⟨.user, "hi", none⟩, ⟨.assistant, "hello", none⟩] =
      [⟨.user, "hi", none⟩, ⟨.assistant, "hello", none⟩] ∧
    (buildUpdatedMessages .append true
        (buildUpdatedMessages .append true [⟨.user, "hi", none⟩]
          [⟨.assistant, "hello", none⟩]) [⟨.assistant, "hello", none⟩]).countP
      (fun x => messagesEqual x ⟨.assistant, "hello", none⟩) = 1 := by
  constructor
  · have h := C3_append_dedup_spec [⟨.user, "hi", none⟩]
      [⟨.user, "hi", none⟩, ⟨.assistant, "hello", none⟩]
      ⟨.assistant, "hello", none⟩ (by decide)
    rw [h.1]
    decide
  · exact (C3_append_dedup_spec [⟨.user, "hi", none⟩] []
      ⟨.assistant, "hello", none⟩ (by decide)).2.2.1

/-! ## Claim C10: deduplication never compares incoming messages with
each other -/

/-- C10: with deduplication enabled, two (role, content)-equal incoming
messages neither of which matches an existing message are both appended:
the result is the full concatenation and carries two equal copies. -/
theorem C10_dedup_within_batch (e : List Message) (m1 m2 : Message)
    (hdup : messagesEqual m1 m2 = true)
    (hnew : e.any (fun x => messagesEqual x m1) = false) :
    buildUpdatedMessages .append true e [m1, m2] = e ++ [m1, m2] ∧
    (buildUpdatedMessages .append true e [m1, m2]).countP
      (fun x => messagesEqual x m1) = 2 := by
  have hnew2 : e.any (fun x => messagesEqual x m2) = false := by
    rw [← hnew]
    congr 1
    funext x
    exact (messagesEqual_congr m1 m2 hdup x).symm
  have hres : buildUpdatedMessages .append true e [m1, m2] = e ++ [m1, m2] := by
    simp [buildUpdatedMessages, deduplicateMessages, hnew, hnew2]
  refine ⟨hres, ?_⟩
  rw [hres]
  have hm2 : messagesEqual m2 m1 = true := by
    rw [messagesEqual_congr m1 m2 hdup m2]
    exact messagesEqual_self m2
  simp [List.countP_append, countP_eq_zero_of_any_false e m1 hnew,
    List.countP_cons, messagesEqual_self, hm2]

/-- Witness for C10: a batch containing the same user message twice is
appended whole. -/
theorem C10_dedup_within_batch_witness :
    buildUpdatedMessages .append true [⟨.assistant, "hello", none⟩]
        [⟨.user, "hi", none⟩, ⟨.user, "hi", some "2024-01-01T00:00:00Z"⟩] =
      [⟨.assistant, "hello", none⟩, ⟨.user, "hi", none⟩,
        ⟨.user, "hi", some "2024-01-01T00:00:00Z"⟩] := by
  have h := C10_dedup_within_batch [⟨.assistant, "hello", none⟩]
    ⟨.user, "hi", none⟩ ⟨.user, "hi", some "2024-01-01T00:00:00Z"⟩
    (by decide) (by decide)
  rw [h.1]
  rfl

/-! ## Claim C8: metadata merge of updateThread -/

/-- C8: the updated conversation keeps the existing id, createdAt and
sourceApp; title, tags and summary are each overridden exactly when an
override is supplied and retained otherwise; updatedAt is always the
current time. -/
theorem C8_metadata_merge (existing : Conversation) (newTitle : Option String)
    (newTags : Option (List String)) (newSummary : Option String)
    (nowIso : String) (updatedMessages : List Message) :
    let u := buildUpdatedConversation existing newTitle newTags newSummary
      nowIso updatedMessages
    u.id = existing.id ∧
    u.metadata.createdAt = existing.metadata.createdAt ∧
    u.metadata.sourceApp = existing.metadata.sourceApp ∧
    u.metadata.updatedAt = some nowIso ∧
    u.messages = updatedMessages ∧
    (newTitle = none → u.metadata.title = existing.metadata.title) ∧
    (∀ x, newTitle = some x → u.metadata.title = x) ∧
    (newTags = none → u.metadata.tags = existing.metadata.tags) ∧
    (∀ x, newTags = some x → u.metadata.tags = some x) ∧
    (newSummary = none → u.metadata.summary = existing.metadata.summary) ∧
    (∀ x, newSummary = some x → u.metadata.summary = some x) := by
  refine ⟨rfl, rfl, rfl, rfl, rfl, ?_, ?_, ?_, ?_, ?_, ?_⟩ <;>
    first
      | (intro h; cases h; rfl)
      | (intro x h; cases h; rfl)

/-- Witness for C8 at concrete inputs. -/
theorem C8_metadata_merge_witness :
    (buildUpdatedConversation exConversation
        (some "New") none (some "Sum") "2024-02-02T00:00:00Z" []).metadata.title =
      "New" ∧
    (buildUpdatedConversation exConversation
        (some "New") none (some "Sum") "2024-02-02T00:00:00Z" []).metadata.tags =
      some ["x"] ∧
    (buildUpdatedConversation exConversation
        (some "New") none (some "Sum") "2024-02-02T00:00:00Z" []).metadata.updatedAt =
      some "2024-02-02T00:00:00Z" := by
  obtain ⟨h1, h2, h3, h4, h5, h6, h7, h8, h9, h10, h11⟩ :=
    C8_metadata_merge exConversation (some "New") none (some "Sum")
      "2024-02-02T00:00:00Z" []
  refine ⟨h7 "New" rfl, ?_, h4⟩
  rw [h8 rfl]
  rfl

/-! ## Claim C4: relevance scoring -/

/-- C4: whenever a search term is present (the query, falling back to
titleContains) and savedAt parses to a time, the relevance result is the
base 50 plus 30 for a case-insensitive title hit, 20 for a summary hit, 10
for a content hit (counted only for the query, never for titleContains),
15 for a tag hit and the recency bonus; the matched fields are exactly the
hit fields in insertion order (title, summary, content, tags), already
distinct. -/
theorem C4_relevance_spec (dateMs : String → Option Int) (nowMs : Int)
    (conversation : Conversation) (info : SavedConversationInfo)
    (query titleContains : Option String) (term : String) (ms : Int)
    (hterm : jsOrElse query titleContains = some term)
    (htruthy : strTruthy term = true)
    (hms : dateMs info.savedAt = some ms) :
    calculateRelevance dateMs nowMs conversation info query titleContains =
      (50 + (if hitTitle conversation term then 30 else 0) +
        (if hitSummary conversation term then 20 else 0) +
        (if jsTruthy query && hitContent conversation term then 10 else 0) +
        (if hitTags conversation term then 15 else 0) + recencyBonus nowMs ms,
       (if hitTitle conversation term then ["title"] else []) ++
        (if hitSummary conversation term then ["summary"] else []) ++
        (if jsTruthy query && hitContent conversation term then ["content"] else []) ++
        (if hitTags conversation term then ["tags"] else [])) := by
  have hj : jsTruthy (some term) = true := by
    simpa [jsTruthy, strTruthy] using htruthy
  simp only [calculateRelevance, hterm, hms, hj, Option.getD_some, if_true,
    hitTitle, hitSummary, hitContent, hitTags, recencyBonus]
  split_ifs <;> simp [jsSetDedup, jsSetDedupGo]

/-- Witness for C4: a title-only hit with a fresh descriptor scores
50 + 30 + 10 with matched field title. -/
theorem C4_relevance_spec_witness :
    calculateRelevance (fun _ => some 0) 0 exConversation exInfo
      (some "old") none = (90, ["title"]) := by
  rw [C4_relevance_spec (fun _ => some 0) 0 exConversation exInfo
    (some "old") none "old" 0 rfl (by decide) rfl]
  norm_num [hitTitle, hitSummary, hitContent, hitTags, recencyBonus,
    exConversation, jsTruthy, strIncl, jsToLower]
  decide

/-! ## Claim C5: the filter predicate -/

/-- C5: matchesFilters is the conjunction of exactly the active criteria
(each skipped when its input is absent); a thread failing any single
active criterion is excluded; and a thread with no tag list fails whenever
at least one tag is requested. -/
theorem C5_filter_conjunction (dateVal : String → Option Int)
    (conversation : Conversation) (input : FindThreadsInput) :
    matchesFilters dateVal conversation input =
      (critTitle conversation input && critTitleContains conversation input &&
       critDateFrom dateVal conversation input &&
       critDateTo dateVal conversation input &&
       critSourceApp conversation input && critTags conversation input &&
       critQuery conversation input) ∧
    ((critTitle conversation input = false ∨
      critTitleContains conversation input = false ∨
      critDateFrom dateVal conversation input = false ∨
      critDateTo dateVal conversation input = false ∨
      critSourceApp conversation input = false ∨
      critTags conversation input = false ∨
      critQuery conversation input = false) →
      matchesFilters dateVal conversation input = false) ∧
    (tagsRequested input = true → conversation.metadata.tags = none →
      matchesFilters dateVal conversation input = false) := by
  have heq : matchesFilters dateVal conversation input =
      (critTitle conversation input && critTitleContains conversation input &&
       critDateFrom dateVal conversation input &&
       critDateTo dateVal conversation input &&
       critSourceApp conversation input && critTags conversation input &&
       critQuery conversation input) := by
    simp only [matchesFilters, critTitle, critTitleContains, critDateFrom,
      critDateTo, critSourceApp, critTags, critQuery, tagsRequested,
      tagsAllPresent, queryFound, iteFalseElse, Bool.not_and, Bool.not_not,
      Bool.and_true, Bool.and_assoc]
  refine ⟨heq, ?_, ?_⟩
  · intro h
    rw [heq]
    rcases h with h | h | h | h | h | h | h <;> simp [h]
  · intro hreq hnone
    rw [heq]
    have : critTags conversation input = false := by
      simp [critTags, tagsAllPresent, hreq, hnone]
    simp [this]

/-- Witness for C5: a thread with the right sourceApp but missing one
requested tag is excluded, and the conjunction evaluates accordingly. -/
theorem C5_filter_conjunction_witness :
    matchesFilters (fun _ => none) exConversation exInput = false ∧
    critSourceApp exConversation exInput = true := by
  constructor
  · exact (C5_filter_conjunction (fun _ => none) exConversation exInput).2.1
      (Or.inr (Or.inr (Or.inr (Or.inr (Or.inr (Or.inl (by decide)))))))
  · decide

/-! ## Storage helper lemmas -/

theorem strTruthy_append_slash (a b : String) :
    strTruthy (a ++ "/" ++ b) = true := by
  simp only [strTruthy, Bool.not_eq_true', beq_eq_false_iff_ne, ne_eq]
  intro h
  have hd : (a ++ "/" ++ b).data = ("" : String).data := congrArg String.data h
  simp only [String.data_append] at hd
  simpa using congrArg List.length hd

theorem keyConsistent_set (m : List (String × SavedConversationInfo))
    (info : SavedConversationInfo) (h : keyConsistent m = true) :
    keyConsistent (recordSet m info.id info) = true := by
  induction m with
  | nil => simp [recordSet, keyConsistent]
  | cons p rest ih =>
    simp only [keyConsistent, List.all_cons, Bool.and_eq_true] at h
    by_cases hpk : p.1 == info.id
    · simp [recordSet, hpk, keyConsistent, List.all_cons, h.2]
    · have := ih h.2
      simp only [keyConsistent] at this
      simp [recordSet, hpk, keyConsistent, List.all_cons, h.1, this]

theorem removed_ids_ne (m : List (String × SavedConversationInfo)) (k : String)
    (h : keyConsistent m = true) :
    ((recordRemove m k).map (fun p => p.2)).all (fun i => !(i.id == k)) = true := by
  induction m with
  | nil => simp [recordRemove]
  | cons p rest ih =>
    simp only [keyConsistent, List.all_cons, Bool.and_eq_true] at h
    have hrest := ih h.2
    by_cases hpk : p.1 == k
    · simpa [recordRemove, List.filter_cons, hpk] using hrest
    · have hid : p.2.id ≠ k := by
        intro hk
        apply hpk
        have h1 : p.1 = p.2.id := by simpa [beq_iff_eq] using h.1
        simp [h1, hk]
      simp only [recordRemove, List.filter_cons, hpk, Bool.not_false, if_true]
      simp only [recordRemove] at hrest
      simp [List.all_cons, hrest, hid]

theorem list_all_of_index (timeOf : String → Int) (s : LocalStorage)
    (pred : SavedConversationInfo → Bool)
    (h : (s.index.map (fun p => p.2)).all pred = true) :
    (LocalStorage.list timeOf s).all pred = true := by
  simp only [LocalStorage.list, List.all_eq_true] at h ⊢
  intro i hi
  exact h i (List.mem_mergeSort.mp hi)

/-- Reading back the id just saved goes through the formatter round trip:
the parse result (a conversation or a thrown parse error) is returned
unchanged and the state is untouched either way. -/
theorem get_after_save (env : MdEnv) (now : String) (t : Conversation)
    (opts : SaveOptions) (s : LocalStorage) :
    (LocalStorage.get env t.id (LocalStorage.save env now t opts s).2).1 =
      (match (getFormatter env opts.format).parse
          ((getFormatter env opts.format).format t opts) with
       | some conv => .ok (some conv)
       | none => .error .parseFailure) := by
  have h1 : recordGet (LocalStorage.save env now t opts s).2.index t.id =
      some (saveDescriptor env now t opts s) :=
    recordGet_set_self s.index t.id _
  have hp : strTruthy (saveFilePath env t opts s) = true :=
    strTruthy_append_slash s.baseDir _
  have h2 : fsRead (LocalStorage.save env now t opts s).2.fs
      (saveFilePath env t opts s) =
      .ok ((getFormatter env opts.format).format t opts) := by
    show fsRead (recordSet s.fs _ _) _ = _
    simp [fsRead, recordGet_set_self]
  simp only [LocalStorage.get, h1, saveDescriptor, hp, Bool.not_true,
    Bool.false_eq_true, if_false, h2]
  cases (getFormatter env opts.format).parse
      ((getFormatter env opts.format).format t opts) <;> rfl

/-! ## Claim C2: save/get/delete consistency -/

/-- C2 (amended): on a key-consistent store, after save(t, options) a
get(t.id) returns exactly t when the options are json format with metadata
and timestamps included and t is schema-valid (other option combinations
can lose information or fail to parse: see the counterexample); and for
every options value, delete(t.id) after the save returns true, a get(t.id)
after the delete returns not-found, and a list() after the delete carries
no descriptor with id t.id. -/
theorem C2_index_consistency (env : MdEnv) (now : String) (timeOf : String → Int)
    (t : Conversation) (opts : SaveOptions) (s : LocalStorage)
    (hkeys : keyConsistent s.index = true) :
    (opts.format = .json → opts.includeMetadata = true →
      opts.includeTimestamps = true → validConversation t = true →
      (LocalStorage.get env t.id (LocalStorage.save env now t opts s).2).1 =
        .ok (some t)) ∧
    (LocalStorage.delete t.id (LocalStorage.save env now t opts s).2).1 =
      .ok true ∧
    (LocalStorage.get env t.id
      (LocalStorage.delete t.id (LocalStorage.save env now t opts s).2).2).1 =
      .ok none ∧
    (LocalStorage.list timeOf
      (LocalStorage.delete t.id (LocalStorage.save env now t opts s).2).2).all
      (fun i => !(i.id == t.id)) = true := by
  have h1 : recordGet (LocalStorage.save env now t opts s).2.index t.id =
      some (saveDescriptor env now t opts s) :=
    recordGet_set_self s.index t.id _
  have hp : strTruthy (saveFilePath env t opts s) = true :=
    strTruthy_append_slash s.baseDir _
  have h2 : fsUnlink (LocalStorage.save env now t opts s).2.fs
      (saveFilePath env t opts s) =
      .ok (recordRemove (LocalStorage.save env now t opts s).2.fs
        (saveFilePath env t opts s)) := by
    show fsUnlink (recordSet s.fs _ _) _ = _
    simp only [fsUnlink, recordGet_set_self]
    rfl
  have hdel : LocalStorage.delete t.id (LocalStorage.save env now t opts s).2 =
      (.ok true,
        { (LocalStorage.save env now t opts s).2 with
          fs := recordRemove (LocalStorage.save env now t opts s).2.fs
            (saveFilePath env t opts s),
          index := recordRemove (LocalStorage.save env now t opts s).2.index t.id,
          diskIndex := (recordRemove
            (LocalStorage.save env now t opts s).2.index t.id).map
            (fun p => p.2) }) := by
    simp only [LocalStorage.delete, h1, saveDescriptor, hp, Bool.not_true,
      Bool.false_eq_true, if_false, h2]
  refine ⟨?_, ?_, ?_, ?_⟩
  · intro hfmt hmeta hts hv
    rw [get_after_save]
    rw [hfmt]
    have : (getFormatter env .json).parse ((getFormatter env .json).format t opts) =
        conversationSchemaParse (jsonFormat t opts) := rfl
    rw [this, jsonFormat_roundtrip t opts hmeta hts hv]
  · rw [hdel]
  · rw [hdel]
    simp [LocalStorage.get, recordGet_remove_self]
  · rw [hdel]
    apply list_all_of_index
    apply removed_ids_ne
    have : (LocalStorage.save env now t opts s).2.index =
        recordSet s.index t.id (saveDescriptor env now t opts s) := rfl
    rw [this]
    exact keyConsistent_set s.index (saveDescriptor env now t opts s) hkeys

/-- Counterexample to C2 as stated: with options json and includeMetadata
false, get after save propagates a parse error instead of returning a
thread whose messages and title equal the saved thread's. -/
theorem C2_counterexample :
    (LocalStorage.get exEnv exThread.id
      (LocalStorage.save exEnv "2024-06-01T00:00:00Z" exThread optsJsonNoMeta
        emptyStore).2).1 = .error .parseFailure ∧
    isOkSomeThread
      (LocalStorage.get exEnv exThread.id
        (LocalStorage.save exEnv "2024-06-01T00:00:00Z" exThread optsJsonNoMeta
          emptyStore).2).1 = false := by
  have hn : conversationSchemaParse (jsonFormat exThread optsJsonNoMeta) =
      none := by decide
  have h := get_after_save exEnv "2024-06-01T00:00:00Z" exThread optsJsonNoMeta
    emptyStore
  have h2 : (getFormatter exEnv optsJsonNoMeta.format).parse
      ((getFormatter exEnv optsJsonNoMeta.format).format exThread optsJsonNoMeta) =
      conversationSchemaParse (jsonFormat exThread optsJsonNoMeta) := rfl
  rw [h2, hn] at h
  rw [h]
  exact ⟨rfl, rfl⟩

/-- Witness for C2 (amended) at a concrete thread and store. -/
theorem C2_index_consistency_witness :
    (LocalStorage.get exEnv exThread.id
      (LocalStorage.save exEnv "2024-06-01T00:00:00Z" exThread optsJsonFull
        emptyStore).2).1 = .ok (some exThread) ∧
    (LocalStorage.delete exThread.id
      (LocalStorage.save exEnv "2024-06-01T00:00:00Z" exThread optsJsonFull
        emptyStore).2).1 = .ok true := by
  obtain ⟨hget, hdel, _, _⟩ := C2_index_consistency exEnv "2024-06-01T00:00:00Z"
    (fun _ => 0) exThread optsJsonFull emptyStore (by decide)
  exact ⟨hget rfl rfl rfl (by decide), hdel⟩

/-! ## Claim C6: self-healing get -/

/-- C6: when the indexed descriptor's recorded file does not exist, get
removes the stale descriptor, flushes the index, returns not-found, and a
subsequent list carries no descriptor with that id; any other read error
propagates and leaves the state (index included) unchanged. -/
theorem C6_self_heal (env : MdEnv) (timeOf : String → Int) (id : String)
    (s : LocalStorage) (info : SavedConversationInfo) (p : String)
    (hkeys : keyConsistent s.index = true)
    (hinfo : recordGet s.index id = some info)
    (hfp : info.filePath = some p) (hpt : strTruthy p = true) :
    (recordGet s.fs p = none →
      (LocalStorage.get env id s).1 = .ok none ∧
      (LocalStorage.get env id s).2.index = recordRemove s.index id ∧
      (LocalStorage.get env id s).2.diskIndex =
        (recordRemove s.index id).map (fun q => q.2) ∧
      (LocalStorage.list timeOf (LocalStorage.get env id s).2).all
        (fun i => !(i.id == id)) = true) ∧
    (recordGet s.fs p = some .ioBroken →
      (LocalStorage.get env id s).1 = .error .ioError ∧
      (LocalStorage.get env id s).2 = s) := by
  constructor
  · intro hmiss
    have hread : fsRead s.fs p = .error .enoent := by simp [fsRead, hmiss]
    have hget : LocalStorage.get env id s =
        (.ok none,
          { s with index := recordRemove s.index id,
                   diskIndex := (recordRemove s.index id).map (fun q => q.2) }) := by
      simp only [LocalStorage.get, hinfo, hfp, hpt, Bool.not_true,
        Bool.false_eq_true, if_false, hread]
    rw [hget]
    refine ⟨rfl, rfl, rfl, ?_⟩
    apply list_all_of_index
    exact removed_ids_ne s.index id hkeys
  · intro hbroken
    have hread : fsRead s.fs p = .error .other := by simp [fsRead, hbroken]
    have hget : LocalStorage.get env id s = (.error .ioError, s) := by
      simp only [LocalStorage.get, hinfo, hfp, hpt, Bool.not_true,
        Bool.false_eq_true, if_false, hread]
    rw [hget]
    exact ⟨rfl, rfl⟩

/-- Witness for C6: a store with a stale index entry self-heals, and the
same entry over a broken file propagates the error. -/
theorem C6_self_heal_witness :
    (LocalStorage.get exEnv "abc-123" staleStore).1 = .ok none ∧
    (LocalStorage.get exEnv "abc-123" staleStore).2.index = [] ∧
    (LocalStorage.get exEnv "abc-123" brokenStore).1 = .error .ioError ∧
    (LocalStorage.get exEnv "abc-123" brokenStore).2 = brokenStore := by
  obtain ⟨hmiss, _⟩ := C6_self_heal exEnv (fun _ => 0) "abc-123" staleStore
    staleInfo "/tmp/store/demo-abc-123.json" (by decide) (by decide) rfl
    (by decide)
  obtain ⟨h1, h2, _, _⟩ := hmiss rfl
  obtain ⟨_, hbrk⟩ := C6_self_heal exEnv (fun _ => 0) "abc-123" brokenStore
    staleInfo "/tmp/store/demo-abc-123.json" (by decide) (by decide) rfl
    (by decide)
  obtain ⟨h3, h4⟩ := hbrk rfl
  refine ⟨h1, ?_, h3, h4⟩
  rw [h2]
  decide

/-! ## Claim C7: delete semantics -/

/-- C7: deleting an absent id returns false and changes nothing; deleting
a present id removes the index entry, flushes the index and returns true,
tolerating a missing thread file, removing an existing file, and
propagating any other unlink error (in which case nothing changes). -/
theorem C7_delete_spec (id : String) (s : LocalStorage) :
    (recordGet s.index id = none →
      (LocalStorage.delete id s).1 = .ok false ∧
      (LocalStorage.delete id s).2 = s) ∧
    (∀ info p, recordGet s.index id = some info → info.filePath = some p →
      strTruthy p = true →
      (recordGet s.fs p = none →
        (LocalStorage.delete id s).1 = .ok true ∧
        (LocalStorage.delete id s).2.index = recordRemove s.index id ∧
        (LocalStorage.delete id s).2.diskIndex =
          (recordRemove s.index id).map (fun q => q.2) ∧
        (LocalStorage.delete id s).2.fs = s.fs) ∧
      (∀ d, recordGet s.fs p = some (.stored d) →
        (LocalStorage.delete id s).1 = .ok true ∧
        (LocalStorage.delete id s).2.index = recordRemove s.index id ∧
        (LocalStorage.delete id s).2.diskIndex =
          (recordRemove s.index id).map (fun q => q.2) ∧
        (LocalStorage.delete id s).2.fs = recordRemove s.fs p) ∧
      (recordGet s.fs p = some .ioBroken →
        (LocalStorage.delete id s).1 = .error .other ∧
        (LocalStorage.delete id s).2 = s)) := by
  constructor
  · intro hnone
    simp only [LocalStorage.delete, hnone]
    exact ⟨by trivial, by trivial⟩
  · intro info p hinfo hfp hpt
    refine ⟨?_, ?_, ?_⟩
    · intro hmiss
      have hunlink : fsUnlink s.fs p = .error .enoent := by
        simp [fsUnlink, hmiss]
      simp only [LocalStorage.delete, hinfo, hfp, hpt, Bool.not_true,
        Bool.false_eq_true, if_false, hunlink]
      exact ⟨by trivial, by trivial, by trivial, by trivial⟩
    · intro d hstored
      have hunlink : fsUnlink s.fs p = .ok (recordRemove s.fs p) := by
        simp [fsUnlink, hstored]
      simp only [LocalStorage.delete, hinfo, hfp, hpt, Bool.not_true,
        Bool.false_eq_true, if_false, hunlink]
      exact ⟨by trivial, by trivial, by trivial, by trivial⟩
    · intro hbroken
      have hunlink : fsUnlink s.fs p = .error .other := by
        simp [fsUnlink, hbroken]
      simp only [LocalStorage.delete, hinfo, hfp, hpt, Bool.not_true,
        Bool.false_eq_true, if_false, hunlink]
      exact ⟨by trivial, by trivial⟩

/-- Witness for C7: deleting an unknown id on a concrete store is a no-op
returning false; deleting the stale entry (file already gone) returns
true; deleting over a broken file propagates. -/
theorem C7_delete_spec_witness :
    (LocalStorage.delete "missing" staleStore).1 = .ok false ∧
    (LocalStorage.delete "missing" staleStore).2 = staleStore ∧
    (LocalStorage.delete "abc-123" staleStore).1 = .ok true ∧
    (LocalStorage.delete "abc-123" brokenStore).1 = .error .other := by
  obtain ⟨habsent, hpresent⟩ := C7_delete_spec "missing" staleStore
  obtain ⟨h1, h2⟩ := habsent (by decide)
  obtain ⟨_, hpresent2⟩ := C7_delete_spec "abc-123" staleStore
  obtain ⟨hmiss, _, _⟩ := hpresent2 staleInfo "/tmp/store/demo-abc-123.json"
    (by decide) rfl (by decide)
  obtain ⟨h3, _, _, _⟩ := hmiss rfl
  obtain ⟨_, hpresent3⟩ := C7_delete_spec "abc-123" brokenStore
  obtain ⟨_, _, hbrk⟩ := hpresent3 staleInfo "/tmp/store/demo-abc-123.json"
    (by decide) rfl (by decide)
  obtain ⟨h4, _⟩ := hbrk rfl
  exact ⟨h1, h2, h3, h4⟩

/-! ## Claim C9: json format without metadata cannot be read back -/

/-- C9: with includeMetadata false the JSON formatter omits the metadata
key entirely; ConversationSchema.parse of that output fails; and a thread
saved in json format without metadata is unreadable: get propagates the
parse error rather than returning a thread or not-found. -/
theorem C9_json_no_metadata (env : MdEnv) (now : String) (t : Conversation)
    (opts : SaveOptions) (s : LocalStorage)
    (hmeta : opts.includeMetadata = false) :
    (∀ fields, jsonFormat t opts = .obj fields →
      jsonLookup fields "metadata" = none) ∧
    conversationSchemaParse (jsonFormat t opts) = none ∧
    (opts.format = .json →
      (LocalStorage.get env t.id (LocalStorage.save env now t opts s).2).1 =
        .error .parseFailure) := by
  have hfields : jsonFormat t opts =
      .obj [("id", .str t.id),
        ("messages",
          .arr (t.messages.map (messageToJson opts.includeTimestamps)))] := by
    simp [jsonFormat, hmeta]
  have hnometa : conversationSchemaParse (jsonFormat t opts) = none := by
    rw [hfields]
    simp [conversationSchemaParse, zodRequired, jsonLookup, List.find?,
      zodString]
  refine ⟨?_, hnometa, ?_⟩
  · intro fields hf
    rw [hfields] at hf
    cases hf
    simp [jsonLookup, List.find?]
  · intro hfmt
    rw [get_after_save]
    rw [hfmt]
    have : (getFormatter env .json).parse ((getFormatter env .json).format t opts) =
        conversationSchemaParse (jsonFormat t opts) := rfl
    rw [this, hnometa]

/-- Witness for C9 at a concrete thread, options and store. -/
theorem C9_json_no_metadata_witness :
    conversationSchemaParse (jsonFormat exThread optsJsonNoMeta) = none ∧
    (LocalStorage.get exEnv exThread.id
      (LocalStorage.save exEnv "2024-06-01T00:00:00Z" exThread optsJsonNoMeta
        emptyStore).2).1 = .error .parseFailure := by
  obtain ⟨_, hparse, hget⟩ := C9_json_no_metadata exEnv "2024-06-01T00:00:00Z"
    exThread optsJsonNoMeta emptyStore rfl
  exact ⟨hparse, hget rfl⟩

/-! ## Claim C1: formatter round trips -/

/-- C1 (amended): the JSON formatter round-trips every schema-valid
conversation exactly when both includeMetadata and includeTimestamps are
set (the markdown formatter does not: see the counterexample). -/
theorem C1_json_roundtrip (t : Conversation) (opts : SaveOptions)
    (hm : opts.includeMetadata = true) (ht : opts.includeTimestamps = true)
    (hv : validConversation t = true) :
    jsonFormatterM.parse (jsonFormatterM.format t opts) = some t := by
  show conversationSchemaParse (jsonFormat t opts) = some t
  exact jsonFormat_roundtrip t opts hm ht hv

/-- Counterexample to C1 as stated: the markdown formatter, with both
options set, does not reproduce lossyThread: the empty tag list comes back
absent and the trailing space of the message content is trimmed. -/
theorem C1_md_not_roundtrip :
    mdParse exEnv (mdFormat exEnv lossyThread optsMdFull) ≠ lossyThread ∧
    (mdParse exEnv (mdFormat exEnv lossyThread optsMdFull)).metadata.tags =
      none ∧
    lossyThread.metadata.tags = some [] ∧
    (mdParse exEnv (mdFormat exEnv lossyThread optsMdFull)).messages.map
      (fun m => m.content) = ["hi"] ∧
    lossyThread.messages.map (fun m => m.content) = ["hi "] := by
  refine ⟨by decide, by decide, rfl, by decide, rfl⟩

/-- Witness for C1 (amended) at a concrete schema-valid thread. -/
theorem C1_json_roundtrip_witness :
    jsonFormatterM.parse (jsonFormatterM.format exThread optsJsonFull) =
      some exThread :=
  C1_json_roundtrip exThread optsJsonFull rfl rfl (by decide)

end ThreadMcp
